import Mathlib

/-!
Shallow embedding of the kapp preflight-check core:

* `crdupgradesafety` validator composition engine (source file
  `src/unnamed/part_002`): `Validation`, `ValidationFunc`, `Validator`,
  `Validator.Validate`.
* `preflight` check adapter (source file `src/pkg/kapp/preflight/check.go`,
  config-storing variant, lines 81-109): `checkImpl`, `NewCheck`,
  `SetConfig`, `Run`.
* `preflight` `Registry` (`Set`, `SetConfig`, `Run`): the registry source
  file itself is not part of the sources available here (only its tests
  are), so the registry operations are modelled from the specification's
  words, as marked on each definition.

Go errors are modelled by the inductive `GoError`; a Go function returning
`error` becomes a Lean function returning `Option GoError` (`none` = nil),
and a Go method that both mutates its receiver and returns `error` becomes
explicit state passing (`Except`-valued, returning the updated state).
-/

/-- Model of a Go `error` value as built by this code base:
`errorString` is `errors.New` / any leaf error; `wrapf msg inner` is
`fmt.Errorf(..., %w)` (the full formatted message plus the wrapped error);
`join` is `errors.Join` applied to a non-empty list of non-nil errors. -/
inductive GoError where
  | errorString (msg : String)
  | wrapf (msg : String) (inner : GoError)
  | join (errs : List GoError)

/-- The `Error()` message of a `GoError`: `errors.Join`'s message is the
messages of the joined errors separated by newlines. -/
def GoError.Error : GoError → String
  | .errorString m => m
  | .wrapf m _ => m
  | .join errs => String.intercalate "\n" (errs.attach.map (fun e => GoError.Error e.1))
decreasing_by
  simp_wf
  have h := List.sizeOf_lt_of_mem e.2
  omega

/-- Go `%q` formatting of a plain name: surround with double quotes
(faithful for names without characters needing escapes, the only ones this
code base uses). -/
def goQuote (s : String) : String := "\x22" ++ s ++ "\x22"

/-- Model of `k8s.io/.../v1.CustomResourceDefinition`. The validator engine
under verification consumes only the object's metadata name (`new.Name` in
`Validator.Validate`), so only that field is modelled. -/
structure CustomResourceDefinition where
  name : String

/-- `ValidateFunc` from `src/unnamed/part_002`: a function from the (old,
new) CRD pair to an error (`none` = upgrade is safe). -/
def ValidateFunc : Type :=
  CustomResourceDefinition → CustomResourceDefinition → Option GoError

/-- The `Validation` interface from `src/unnamed/part_002`, in its only
implementation shape `ValidationFunc`: a human-readable name plus the
validation logic. -/
structure Validation where
  name : String
  validateFunc : ValidateFunc

/-- `NewValidationFunc` from `src/unnamed/part_002`. -/
def NewValidationFunc (name : String) (vfunc : ValidateFunc) : Validation :=
  { name := name, validateFunc := vfunc }

/-- `Validation.Name()`. -/
def Validation.Name (vf : Validation) : String := vf.name

/-- `ValidationFunc.Validate`: delegates to the wrapped function. -/
def Validation.Validate (vf : Validation) (old nw : CustomResourceDefinition) :
    Option GoError :=
  vf.validateFunc old nw

/-- The `Validator` struct from `src/unnamed/part_002`: an ordered list of
Validations. -/
structure Validator where
  Validations : List Validation

/-- The error wrapping performed inside `Validator.Validate`
(`src/unnamed/part_002` line 58): `fmt.Errorf("CustomResourceDefinition %s
failed upgrade safety validation. %q validation failed: %w", new.Name,
validation.Name(), err)`. -/
def wrapValidationErr (crdName valName : String) (err : GoError) : GoError :=
  GoError.wrapf
    ("CustomResourceDefinition " ++ crdName ++
      " failed upgrade safety validation. " ++ goQuote valName ++
      " validation failed: " ++ err.Error)
    err

/-- The `for` loop of `Validator.Validate` (`src/unnamed/part_002` lines
56-63): walks the Validations in order, appending the wrapped error of each
failing Validation to the accumulator `validateErrs`. -/
def Validator.validateLoop (old nw : CustomResourceDefinition) :
    List Validation → List GoError → List GoError
  | [], validateErrs => validateErrs
  | validation :: rest, validateErrs =>
    match validation.Validate old nw with
    | some err =>
        Validator.validateLoop old nw rest
          (validateErrs ++ [wrapValidationErr nw.name validation.Name err])
    | none => Validator.validateLoop old nw rest validateErrs

/-- `Validator.Validate` from `src/unnamed/part_002` lines 54-68: run the
loop starting from the empty accumulator; if any errors were collected,
return `errors.Join` of them, else nil. -/
def Validator.Validate (v : Validator) (old nw : CustomResourceDefinition) :
    Option GoError :=
  let validateErrs := Validator.validateLoop old nw v.Validations []
  if validateErrs.length > 0 then some (GoError.join validateErrs) else none

/-- Declarative description of the failures `Validator.Validate` collects:
the wrapped errors of exactly the failing Validations, in registration
order. -/
def Validator.failures (v : Validator) (old nw : CustomResourceDefinition) :
    List GoError :=
  v.Validations.filterMap
    (fun validation =>
      (validation.Validate old nw).map (wrapValidationErr nw.name validation.Name))

/-- Helper: the validation loop appends exactly the wrapped errors of the
failing Validations, in order, to the incoming accumulator. -/
theorem Validator.validateLoop_eq (old nw : CustomResourceDefinition)
    (l : List Validation) (acc : List GoError) :
    Validator.validateLoop old nw l acc =
      acc ++ l.filterMap
        (fun validation =>
          (validation.Validate old nw).map (wrapValidationErr nw.name validation.Name)) := by
  induction l generalizing acc with
  | nil => simp [Validator.validateLoop]
  | cons v rest ih =>
    cases h : v.Validate old nw with
    | none => simp [Validator.validateLoop, h, ih]
    | some e => simp [Validator.validateLoop, h, ih]

/-- Helper: `Validator.Validate` in terms of the declarative failure list. -/
theorem Validator.Validate_eq_failures (v : Validator)
    (old nw : CustomResourceDefinition) :
    v.Validate old nw =
      if (v.failures old nw).isEmpty then none
      else some (GoError.join (v.failures old nw)) := by
  unfold Validator.Validate Validator.failures
  rw [Validator.validateLoop_eq]
  simp only [List.nil_append]
  rcases h : List.filterMap
      (fun validation =>
        (validation.Validate old nw).map (wrapValidationErr nw.name validation.Name))
      v.Validations with _ | ⟨e, rest⟩ <;> simp [h]

/-- C1: `Validator.Validate` evaluates every Validation (the collected
failure list is exactly the in-order list of all failing Validations'
wrapped errors, never just a prefix), returns nil iff all Validations pass
(in particular it always succeeds with zero Validations), and otherwise
returns the single `errors.Join` of the failures in registration order. -/
theorem validator_validate_complete_aggregation (v : Validator)
    (old nw : CustomResourceDefinition) :
    (v.Validate old nw = none ↔
      ∀ validation ∈ v.Validations, validation.Validate old nw = none)
    ∧ (v.Validate old nw = none
        ∨ v.Validate old nw = some (GoError.join (v.failures old nw))) := by
  rw [Validator.Validate_eq_failures]
  constructor
  · constructor
    · intro h validation hmem
      by_cases hf : v.failures old nw = []
      · have := List.filterMap_eq_nil_iff.mp hf validation hmem
        simpa using this
      · simp [List.isEmpty_iff, hf] at h
    · intro h
      have hf : v.failures old nw = [] := by
        apply List.filterMap_eq_nil_iff.mpr
        intro validation hmem
        simp [h validation hmem]
      simp [hf]
  · by_cases hf : v.failures old nw = [] <;> simp [List.isEmpty_iff, hf]

/-- C8: every failing Validation's underlying error appears in the
collected failure list wrapped (via `fmt.Errorf` with `%w`) together with
the resource's identifying name (`new.Name`) and the Validation's name, and
the overall result is the join of that list, so each failure is
attributable to a specific validation and resource. -/
theorem validator_failure_attribution (v : Validator)
    (old nw : CustomResourceDefinition) (validation : Validation) (e : GoError)
    (hmem : validation ∈ v.Validations)
    (hfail : validation.Validate old nw = some e) :
    wrapValidationErr nw.name validation.Name e ∈ v.failures old nw
    ∧ v.Validate old nw = some (GoError.join (v.failures old nw)) := by
  have hm : wrapValidationErr nw.name validation.Name e ∈ v.failures old nw := by
    apply List.mem_filterMap.mpr
    exact ⟨validation, hmem, by simp [hfail]⟩
  refine ⟨hm, ?_⟩
  rw [Validator.Validate_eq_failures]
  rcases h : v.failures old nw with _ | ⟨e₀, rest⟩
  · rw [h] at hm
    simp at hm
  · simp [h]

/-- Witness for C8 at a concrete input: a validator holding one validation
named "fail" that fails with `errors.New("boom")`, run against CRDs named
"oldcrd" and "crd". -/
theorem validator_failure_attribution_witness :
    wrapValidationErr "crd" (Validation.Name (NewValidationFunc "fail"
        (fun _ _ => some (GoError.errorString "boom")))) (GoError.errorString "boom") ∈
      Validator.failures
        ⟨[NewValidationFunc "fail" (fun _ _ => some (GoError.errorString "boom"))]⟩
        ⟨"oldcrd"⟩ ⟨"crd"⟩
    ∧ Validator.Validate
        ⟨[NewValidationFunc "fail" (fun _ _ => some (GoError.errorString "boom"))]⟩
        ⟨"oldcrd"⟩ ⟨"crd"⟩
      = some (GoError.join (Validator.failures
          ⟨[NewValidationFunc "fail" (fun _ _ => some (GoError.errorString "boom"))]⟩
          ⟨"oldcrd"⟩ ⟨"crd"⟩)) :=
  validator_failure_attribution
    ⟨[NewValidationFunc "fail" (fun _ _ => some (GoError.errorString "boom"))]⟩
    ⟨"oldcrd"⟩ ⟨"crd"⟩
    (NewValidationFunc "fail" (fun _ _ => some (GoError.errorString "boom")))
    (GoError.errorString "boom") (List.mem_singleton.mpr rfl) rfl

/-- Model of Go `context.Context` as the check framework observes it. The
checks in scope only thread it through (the tests even pass nil), so it is
an abstract token type. -/
inductive GoContext where
  | nilContext

/-- Model of `*ctldgraph.ChangeGraph`: externally built, only passed
through by the code under verification (the tests pass nil), so it is an
abstract token type. -/
inductive ChangeGraph where
  | nilGraph

/-- Model of `CheckConfig = map[string]any` from
`src/pkg/kapp/preflight/check.go`: an association list of keys to (here,
string-modelled, since the framework treats them opaquely) values; `none`
is the Go nil map, the zero value of the field. -/
def CheckConfig : Type := Option (List (String × String))

/-- `CheckFunc` from `src/pkg/kapp/preflight/check.go` line 71:
`func(context.Context, *ctldgraph.ChangeGraph, CheckConfig) error`. -/
def CheckFunc : Type := GoContext → ChangeGraph → CheckConfig → Option GoError

/-- The `checkImpl` struct from `src/pkg/kapp/preflight/check.go` lines
81-85 (the config-storing variant): enabled flag, check function, and the
stored config (zero value: nil map). -/
structure checkImpl where
  enabled : Bool
  checkFunc : CheckFunc
  config : CheckConfig

/-- `NewCheck` from `src/pkg/kapp/preflight/check.go` lines 87-92: the
`config` field is left at its zero value (nil map). -/
def NewCheck (cf : CheckFunc) (enabled : Bool) : checkImpl :=
  { enabled := enabled, checkFunc := cf, config := none }

/-- `checkImpl.Enabled` (check.go lines 94-96). -/
def checkImpl.Enabled (cf : checkImpl) : Bool := cf.enabled

/-- `checkImpl.SetEnabled` (check.go lines 98-100), as state passing. -/
def checkImpl.SetEnabled (cf : checkImpl) (enabled : Bool) : checkImpl :=
  { cf with enabled := enabled }

/-- `checkImpl.SetConfig` (check.go lines 102-105), as state passing:
stores the given config over whatever was there and returns nil. -/
def checkImpl.SetConfig (cf : checkImpl) (config : CheckConfig) :
    checkImpl × Option GoError :=
  ({ cf with config := config }, none)

/-- `checkImpl.Run` (check.go lines 107-109): invokes the wrapped check
function with the stored config. -/
def checkImpl.Run (cf : checkImpl) (ctx : GoContext) (changeGraph : ChangeGraph) :
    Option GoError :=
  cf.checkFunc ctx changeGraph cf.config

/-- A sequence of `SetConfig` calls applied in order to a check. -/
def applyConfigs (cf : checkImpl) (configs : List CheckConfig) : checkImpl :=
  configs.foldl (fun c config => (c.SetConfig config).1) cf

/-- C10: the config-storing adapter's `SetConfig` always returns nil, every
call fully replaces the stored config (last write wins), and a subsequent
`Run` invokes the wrapped check function with exactly the most recently set
config — the nil map if `SetConfig` was never called. -/
theorem checkImpl_setConfig_last_write_wins :
    (∀ (cf : checkImpl) (config : CheckConfig), (cf.SetConfig config).2 = none)
    ∧ (∀ (f : CheckFunc) (enabled : Bool) (configs : List CheckConfig)
        (ctx : GoContext) (g : ChangeGraph),
        (applyConfigs (NewCheck f enabled) configs).Run ctx g =
          f ctx g (configs.getLast?.getD none)) := by
  constructor
  · intro cf config
    rfl
  · intro f enabled configs ctx g
    suffices h : ∀ (cf : checkImpl) (configs : List CheckConfig),
        (applyConfigs cf configs).Run ctx g =
          cf.checkFunc ctx g (configs.getLast?.getD cf.config) by
      simpa [NewCheck] using h (NewCheck f enabled) configs
    intro cf cfgs
    induction cfgs generalizing cf with
    | nil => rfl
    | cons c rest ih =>
      rcases rest with _ | ⟨c₂, rest₂⟩
      · rfl
      · simpa [applyConfigs, checkImpl.SetConfig, List.getLast?] using
          ih { cf with config := c }

/-- Go `strings.Split` with separator "," on the character list: splitting
the empty list yields one empty token, and every comma opens a new token. -/
def splitCommaChars : List Char → List (List Char)
  | [] => [[]]
  | c :: rest =>
    if c = ',' then [] :: splitCommaChars rest
    else
      match splitCommaChars rest with
      | [] => [[c]]
      | t :: ts => (c :: t) :: ts

/-- Go `strings.Split(s, ",")`: comma-separated tokens of `s`; the empty
string yields `[""]` and a bare comma yields `["", ""]`, as in Go. -/
def splitComma (s : String) : List String :=
  (splitCommaChars s.toList).map (fun cs => String.mk cs)

/-- Modelled from the spec: the configuration-time error classes the
Registry reports (the registry source file is not among the sources here).
Spec taxonomy (§7): malformed enable-list (empty token), unknown check in
the enable-list, duplicate configuration, unrecognized check in the
configuration document. -/
inductive RegistryError where
  | formatError (flagValue : String)
  | unknownCheck (name : String)
  | duplicateConfiguration (name : String)
  | unrecognizedCheck (name : String)

/-- Modelled from the spec: a rule of the parsed configuration document —
a check name plus an opaque configuration mapping (spec §3, §6). -/
structure PreflightRule where
  name : String
  config : CheckConfig

/-- Modelled from the spec: the `Registry` (its source file is missing
here; only its tests are available). It owns the known checks by name, in
stable registration order (spec §4.3 `Run` iterates in registration
order, hence a list), plus the secondary record of explicitly requested
names from the enable-list (the tests' `enabledFlag` field). -/
structure Registry where
  known : List (String × checkImpl)
  enabledFlag : List String

/-- Whether `name` names a known check of the Registry. -/
def Registry.isKnown (r : Registry) (name : String) : Bool :=
  r.known.any (fun p => p.1 = name)

/-- Modelled from the spec: `Registry.Set` (spec §4.3): with zero known
checks, a pure no-op returning success for any input; otherwise split the
flag value on commas, fail with a format error on any empty token, fail
with an unknown-check error if a token names no known check, and on
success enable exactly the named checks, disable all others, and record
the requested names. -/
def Registry.Set (r : Registry) (s : String) : Except RegistryError Registry :=
  if r.known.isEmpty then .ok r
  else
    let checks := splitComma s
    if checks.any (fun t => t.isEmpty) then .error (.formatError s)
    else
      match checks.find? (fun t => !(r.isKnown t)) with
      | some t => .error (.unknownCheck t)
      | none =>
          .ok { known := r.known.map (fun p => (p.1, p.2.SetEnabled (checks.contains p.1))),
                enabledFlag := checks }

/-- Modelled from the spec: the `Run` loop of the Registry (spec §4.3):
iterate the known checks in registration order, invoke `Run` on each
enabled check, and collect every returned error without stopping. -/
def Registry.runLoop (ctx : GoContext) (g : ChangeGraph) :
    List (String × checkImpl) → List GoError → List GoError
  | [], errs => errs
  | p :: rest, errs =>
    if p.2.Enabled then
      match p.2.Run ctx g with
      | some e => Registry.runLoop ctx g rest (errs ++ [e])
      | none => Registry.runLoop ctx g rest errs
    else Registry.runLoop ctx g rest errs

/-- Modelled from the spec: `Registry.Run` (spec §4.3): run the loop and
return the single joined error if any enabled check failed, else nil. -/
def Registry.Run (r : Registry) (ctx : GoContext) (g : ChangeGraph) : Option GoError :=
  let errs := Registry.runLoop ctx g r.known []
  if errs.isEmpty then none else some (GoError.join errs)

/-- Declarative description of the errors `Registry.Run` collects: the
errors of exactly the failing enabled checks, in registration order. -/
def Registry.enabledFailures (r : Registry) (ctx : GoContext) (g : ChangeGraph) :
    List GoError :=
  r.known.filterMap (fun p => if p.2.Enabled then p.2.Run ctx g else none)

/-- Modelled from the spec: forwarding one rule's opaque config to the
named check via the check's `SetConfig` (spec §4.3). The membership list
is unchanged, only the matching check's stored config is replaced; the
config-storing adapter's `SetConfig` never returns an error, so no error
propagates from this step. -/
def Registry.applyRuleConfig (r : Registry) (name : String) (config : CheckConfig) :
    Registry :=
  { r with known := r.known.map (fun p => if p.1 = name then (p.1, (p.2.SetConfig config).1) else p) }

/-- Modelled from the spec: the rule-distribution loop of
`Registry.SetConfig` (spec §4.3): walk the rules in order; a rule naming
no known check fails with an unrecognized-check error, a rule whose name
was already seen fails with a duplicate-configuration error, and otherwise
the rule's config is forwarded to the matching check (incremental
application with a hard stop on the first violation, one of the two
disciplines the spec admits). -/
def Registry.setConfigLoop :
    Registry → List PreflightRule → List String → Except RegistryError Registry
  | r, [], _ => .ok r
  | r, rule :: rest, seen =>
    if !(r.isKnown rule.name) then .error (.unrecognizedCheck rule.name)
    else if seen.contains rule.name then .error (.duplicateConfiguration rule.name)
    else Registry.setConfigLoop (r.applyRuleConfig rule.name rule.config) rest
          (rule.name :: seen)

/-- Modelled from the spec: `Registry.SetConfig` (spec §4.3): distribute
the configuration document's rule list starting from no seen names. -/
def Registry.SetConfig (r : Registry) (rules : List PreflightRule) :
    Except RegistryError Registry :=
  Registry.setConfigLoop r rules []

/-- Helper: the run loop appends exactly the errors of the failing enabled
checks, in order, to the incoming accumulator. -/
theorem Registry.runLoop_eq (ctx : GoContext) (g : ChangeGraph)
    (l : List (String × checkImpl)) (acc : List GoError) :
    Registry.runLoop ctx g l acc =
      acc ++ l.filterMap (fun p => if p.2.Enabled then p.2.Run ctx g else none) := by
  induction l generalizing acc with
  | nil => simp [Registry.runLoop]
  | cons p rest ih =>
    cases hen : p.2.Enabled with
    | false => simp [Registry.runLoop, hen, ih]
    | true =>
      cases hrun : p.2.Run ctx g with
      | none => simp [Registry.runLoop, hen, hrun, ih]
      | some e => simp [Registry.runLoop, hen, hrun, ih]

/-- Helper: `Registry.Run` in terms of the declarative failure list. -/
theorem Registry.Run_eq_enabledFailures (r : Registry) (ctx : GoContext)
    (g : ChangeGraph) :
    r.Run ctx g =
      if (r.enabledFailures ctx g).isEmpty then none
      else some (GoError.join (r.enabledFailures ctx g)) := by
  unfold Registry.Run Registry.enabledFailures
  rw [Registry.runLoop_eq]
  simp only [List.nil_append]

/-- C2: `Registry.Run` succeeds iff every enabled known check's `Run`
returns nil — in particular it always succeeds with zero known checks or
with every known check disabled — and otherwise returns the single join of
the errors of exactly the failing enabled checks, collected in
registration order without stopping at the first failure; disabled checks
contribute nothing to the result. -/
theorem registry_run_aggregation (r : Registry) (ctx : GoContext) (g : ChangeGraph) :
    (r.Run ctx g = none ↔
      ∀ p ∈ r.known, p.2.Enabled = true → p.2.Run ctx g = none)
    ∧ (r.Run ctx g = none
        ∨ r.Run ctx g = some (GoError.join (r.enabledFailures ctx g))) := by
  rw [Registry.Run_eq_enabledFailures]
  constructor
  · constructor
    · intro h p hmem hen
      by_cases hf : r.enabledFailures ctx g = []
      · have := List.filterMap_eq_nil_iff.mp hf p hmem
        simpa [hen] using this
      · simp [List.isEmpty_iff, hf] at h
    · intro h
      have hf : r.enabledFailures ctx g = [] := by
        apply List.filterMap_eq_nil_iff.mpr
        intro p hmem
        cases hen : p.2.Enabled with
        | false => simp [hen]
        | true => simp [hen, h p hmem hen]
      simp [hf]
  · by_cases hf : r.enabledFailures ctx g = [] <;> simp [List.isEmpty_iff, hf]

/-- Helper: comma-splitting a character list always yields at least one
token. -/
theorem splitCommaChars_ne_nil (l : List Char) : splitCommaChars l ≠ [] := by
  induction l with
  | nil => simp [splitCommaChars]
  | cons c rest ih =>
    by_cases h : c = ','
    · simp [splitCommaChars, h]
    · simp only [splitCommaChars, h, if_false]
      rcases hr : splitCommaChars rest with _ | ⟨t, ts⟩
      · simp
      · simp

/-- Helper: comma-splitting a string always yields at least one token. -/
theorem splitComma_ne_nil (s : String) : splitComma s ≠ [] := by
  simp [splitComma, splitCommaChars_ne_nil]

/-- C4: on a Registry with zero known checks, `Set` succeeds for every
input string — including malformed ones — and changes no state. -/
theorem registry_set_zero_known (r : Registry) (s : String)
    (h : r.known = []) : r.Set s = .ok r := by
  unfold Registry.Set
  simp [h]

/-- Witness for C4 at the malformed input "," on an empty registry. -/
theorem registry_set_zero_known_witness :
    Registry.Set { known := [], enabledFlag := [] } ","
      = .ok { known := [], enabledFlag := [] } :=
  registry_set_zero_known { known := [], enabledFlag := [] } "," rfl

/-- C6: on a Registry with at least one known check, `Set` fails with a
format error for every enable-list string whose comma-split contains an
empty token (bare comma, leading/trailing comma, double comma, or the
empty string). -/
theorem registry_set_format_error (r : Registry) (s : String)
    (hknown : r.known ≠ [])
    (hempty : ∃ t ∈ splitComma s, t.isEmpty = true) :
    r.Set s = .error (.formatError s) := by
  unfold Registry.Set
  have h1 : r.known.isEmpty = false := by simp [List.isEmpty_iff, hknown]
  have h2 : (splitComma s).any (fun t => t.isEmpty) = true :=
    List.any_eq_true.mpr (by simpa using hempty)
  simp [h1, h2]

/-- Witness for C6 at the input "," on a registry knowing one check. -/
theorem registry_set_format_error_witness :
    Registry.Set
        { known := [("some", NewCheck (fun _ _ _ => none) true)], enabledFlag := [] } ","
      = .error (.formatError ",") :=
  registry_set_format_error
    { known := [("some", NewCheck (fun _ _ _ => none) true)], enabledFlag := [] } ","
    (by simp) (by decide)

/-- Counterexample to C5 as stated: on a Registry with zero known checks,
`Set` of a string naming a check absent from the (empty) known set
succeeds instead of failing with an unknown-check error, because the
zero-known-checks case is an unconditional no-op (spec §4.3, and the
registry test's first case). -/
theorem registry_set_unknown_check_counterexample :
    Registry.Set { known := [], enabledFlag := [] } "nonexistent"
      = .ok { known := [], enabledFlag := [] } := rfl

/-- C5 (amended): on a Registry with at least one known check, for every
enable-list string without empty tokens that names at least one check
absent from the known set, `Set` fails with an unknown-check error naming
an absent check from the list. -/
theorem registry_set_unknown_check_error (r : Registry) (s : String)
    (hknown : r.known ≠ [])
    (hnoempty : ∀ t ∈ splitComma s, t.isEmpty = false)
    (hunk : ∃ t ∈ splitComma s, r.isKnown t = false) :
    ∃ t, t ∈ splitComma s ∧ r.isKnown t = false
      ∧ r.Set s = .error (.unknownCheck t) := by
  unfold Registry.Set
  have h1 : r.known.isEmpty = false := by simp [List.isEmpty_iff, hknown]
  have h2 : (splitComma s).any (fun t => t.isEmpty) = false := by
    simp only [List.any_eq_false]
    intro t ht
    simp [hnoempty t ht]
  have h3 : ((splitComma s).find? (fun t => !(r.isKnown t))).isSome := by
    apply List.find?_isSome.mpr
    rcases hunk with ⟨t, htmem, ht⟩
    exact ⟨t, htmem, by simp [ht]⟩
  rcases hfind : (splitComma s).find? (fun t => !(r.isKnown t)) with _ | t
  · rw [hfind] at h3
    simp at h3
  · have hmem := List.mem_of_find?_eq_some hfind
    have hprop := List.find?_some hfind
    refine ⟨t, hmem, by simpa using hprop, ?_⟩
    simp [h1, h2, hfind]

/-- Witness for the amended C5: a registry knowing only "exists", asked to
enable "nonexistent". -/
theorem registry_set_unknown_check_error_witness :
    ∃ t, t ∈ splitComma "nonexistent"
      ∧ Registry.isKnown
          { known := [("exists", NewCheck (fun _ _ _ => none) true)], enabledFlag := [] } t
        = false
      ∧ Registry.Set
          { known := [("exists", NewCheck (fun _ _ _ => none) true)], enabledFlag := [] }
          "nonexistent"
        = .error (.unknownCheck t) :=
  registry_set_unknown_check_error
    { known := [("exists", NewCheck (fun _ _ _ => none) true)], enabledFlag := [] }
    "nonexistent" (by simp) (by decide) (by decide)

/-- C3: for every non-empty enable-list string consisting only of known
check names separated by single commas (no token empty, every token
known), `Set` succeeds, preserves the known-check membership, and
afterwards a known check is enabled exactly when its name appears in the
list — the exclusive allow-list behavior. -/
theorem registry_set_allowlist (r : Registry) (s : String)
    (hne : s ≠ "")
    (htoks : ∀ t ∈ splitComma s, t.isEmpty = false ∧ r.isKnown t = true) :
    ∃ r₂, r.Set s = .ok r₂
      ∧ r₂.known.map Prod.fst = r.known.map Prod.fst
      ∧ ∀ p ∈ r₂.known, p.2.Enabled = (splitComma s).contains p.1 := by
  by_cases hk : r.known = []
  · refine ⟨r, ?_, rfl, ?_⟩
    · unfold Registry.Set
      simp [hk]
    · intro p hp
      rw [hk] at hp
      simp at hp
  · have h1 : r.known.isEmpty = false := by simp [List.isEmpty_iff, hk]
    have h2 : (splitComma s).any (fun t => t.isEmpty) = false := by
      simp only [List.any_eq_false]
      intro t ht
      simp [(htoks t ht).1]
    have h3 : (splitComma s).find? (fun t => !(r.isKnown t)) = none := by
      apply List.find?_eq_none.mpr
      intro t ht
      simp [(htoks t ht).2]
    refine ⟨{ known := r.known.map
                (fun p => (p.1, p.2.SetEnabled ((splitComma s).contains p.1))),
              enabledFlag := splitComma s }, ?_, ?_, ?_⟩
    · unfold Registry.Set
      simp only [h1, h2, h3, Bool.false_eq_true, if_false]
    · simp [List.map_map]
    · intro p hp
      rcases List.mem_map.mp hp with ⟨q, hq, rfl⟩
      rfl

/-- Witness for C3: a registry knowing checks "a" (initially disabled) and
"b" (initially enabled), given the list "a": afterwards "a" is enabled and
"b" is disabled. -/
theorem registry_set_allowlist_witness :
    ∃ r₂, Registry.Set
        { known := [("a", NewCheck (fun _ _ _ => none) false),
                    ("b", NewCheck (fun _ _ _ => none) true)],
          enabledFlag := [] } "a"
      = .ok r₂
      ∧ r₂.known.map Prod.fst =
          (({ known := [("a", NewCheck (fun _ _ _ => none) false),
                        ("b", NewCheck (fun _ _ _ => none) true)],
              enabledFlag := [] } : Registry)).known.map Prod.fst
      ∧ ∀ p ∈ r₂.known, p.2.Enabled = (splitComma "a").contains p.1 :=
  registry_set_allowlist
    { known := [("a", NewCheck (fun _ _ _ => none) false),
                ("b", NewCheck (fun _ _ _ => none) true)],
      enabledFlag := [] }
    "a" (by decide) (by decide)


/-- Helper: forwarding a config to a check changes no membership — a name
is known after `applyRuleConfig` iff it was known before. -/
theorem Registry.isKnown_applyRuleConfig (r : Registry) (n : String)
    (c : CheckConfig) (m : String) :
    (r.applyRuleConfig n c).isKnown m = r.isKnown m := by
  unfold Registry.applyRuleConfig Registry.isKnown
  simp only []
  generalize r.known = l
  induction l with
  | nil => rfl
  | cons p rest ih =>
    simp only [List.map_cons, List.any_cons, ih]
    by_cases h : p.1 = n <;> simp [h]

/-- Helper: one step of the distribution loop when the head rule names an
unknown check. -/
theorem Registry.setConfigLoop_head_unknown (r : Registry) (rule : PreflightRule)
    (rest : List PreflightRule) (seen : List String)
    (hkn : r.isKnown rule.name = false) :
    Registry.setConfigLoop r (rule :: rest) seen =
      .error (.unrecognizedCheck rule.name) := by
  unfold Registry.setConfigLoop
  rw [hkn]
  simp

/-- Helper: one step of the distribution loop when the head rule names a
known check already seen. -/
theorem Registry.setConfigLoop_head_seen (r : Registry) (rule : PreflightRule)
    (rest : List PreflightRule) (seen : List String)
    (hkn : r.isKnown rule.name = true)
    (hc : seen.contains rule.name = true) :
    Registry.setConfigLoop r (rule :: rest) seen =
      .error (.duplicateConfiguration rule.name) := by
  unfold Registry.setConfigLoop
  rw [hkn, hc]
  simp

/-- Helper: one step of the distribution loop when the head rule names a
known, not-yet-seen check: its config is forwarded and the loop continues. -/
theorem Registry.setConfigLoop_head_fresh (r : Registry) (rule : PreflightRule)
    (rest : List PreflightRule) (seen : List String)
    (hkn : r.isKnown rule.name = true)
    (hc : seen.contains rule.name = false) :
    Registry.setConfigLoop r (rule :: rest) seen =
      Registry.setConfigLoop (r.applyRuleConfig rule.name rule.config) rest
        (rule.name :: seen) := by
  conv_lhs => unfold Registry.setConfigLoop
  rw [hkn, hc]
  simp

/-- Helper: if every rule names a known check and either the rule names
repeat among themselves or some rule's name was already seen, the
distribution loop ends in a duplicate-configuration error. -/
theorem Registry.setConfigLoop_duplicate (rules : List PreflightRule) :
    ∀ (r : Registry) (seen : List String),
      (∀ rule ∈ rules, r.isKnown rule.name = true) →
      (¬(rules.map PreflightRule.name).Nodup ∨ ∃ rule ∈ rules, rule.name ∈ seen) →
      ∃ n, Registry.setConfigLoop r rules seen = .error (.duplicateConfiguration n) := by
  induction rules with
  | nil =>
    intro r seen _ hbad
    rcases hbad with hnd | ⟨rule, hmem, _⟩
    · simp at hnd
    · simp at hmem
  | cons rule rest ih =>
    intro r seen hknown hbad
    have hkn : r.isKnown rule.name = true := hknown rule (List.mem_cons_self rule rest)
    by_cases hseen : rule.name ∈ seen
    · exact ⟨rule.name,
        Registry.setConfigLoop_head_seen r rule rest seen hkn (by simpa using hseen)⟩
    · have hknown2 : ∀ ru ∈ rest,
          (r.applyRuleConfig rule.name rule.config).isKnown ru.name = true := by
        intro ru hru
        rw [Registry.isKnown_applyRuleConfig]
        exact hknown ru (List.mem_cons_of_mem rule hru)
      have hbad2 : ¬(rest.map PreflightRule.name).Nodup
          ∨ ∃ ru ∈ rest, ru.name ∈ rule.name :: seen := by
        rcases hbad with hnd | ⟨ru, hmemru, hseenru⟩
        · by_cases hin : rule.name ∈ rest.map PreflightRule.name
          · right
            rcases List.mem_map.mp hin with ⟨ru, hru, hname⟩
            exact ⟨ru, hru, by simp [hname]⟩
          · left
            intro hnd2
            rw [List.map_cons] at hnd
            exact hnd (List.nodup_cons.mpr ⟨hin, hnd2⟩)
        · rcases List.mem_cons.mp hmemru with heq | hru
          · exact absurd (heq ▸ hseenru) hseen
          · exact Or.inr ⟨ru, hru, List.mem_cons_of_mem rule.name hseenru⟩
      obtain ⟨n, hn⟩ := ih (r.applyRuleConfig rule.name rule.config)
        (rule.name :: seen) hknown2 hbad2
      refine ⟨n, ?_⟩
      rw [Registry.setConfigLoop_head_fresh r rule rest seen hkn (by simp [hseen])]
      exact hn

/-- Helper: if the rule names are pairwise distinct and none was already
seen, and some rule names an unknown check, the distribution loop ends in
an unrecognized-check error. -/
theorem Registry.setConfigLoop_unknown (rules : List PreflightRule) :
    ∀ (r : Registry) (seen : List String),
      (rules.map PreflightRule.name).Nodup →
      (∀ rule ∈ rules, rule.name ∉ seen) →
      (∃ rule ∈ rules, r.isKnown rule.name = false) →
      ∃ n, Registry.setConfigLoop r rules seen = .error (.unrecognizedCheck n) := by
  induction rules with
  | nil =>
    intro r seen _ _ hex
    simp at hex
  | cons rule rest ih =>
    intro r seen hnd hnotseen hex
    by_cases hkn : r.isKnown rule.name = true
    · rw [List.map_cons] at hnd
      have hhead : rule.name ∉ rest.map PreflightRule.name := (List.nodup_cons.mp hnd).1
      have hnd2 : (rest.map PreflightRule.name).Nodup := (List.nodup_cons.mp hnd).2
      rcases hex with ⟨ru, hmemru, hru⟩
      have hrurest : ru ∈ rest := by
        rcases List.mem_cons.mp hmemru with heq | h
        · rw [heq, hkn] at hru
          cases hru
        · exact h
      have hnotseen2 : ∀ ru2 ∈ rest, ru2.name ∉ rule.name :: seen := by
        intro ru2 hru2 hmem
        rcases List.mem_cons.mp hmem with heq | hmemseen
        · exact hhead (heq ▸ List.mem_map_of_mem PreflightRule.name hru2)
        · exact hnotseen ru2 (List.mem_cons_of_mem rule hru2) hmemseen
      have hex2 : ∃ ru2 ∈ rest,
          (r.applyRuleConfig rule.name rule.config).isKnown ru2.name = false :=
        ⟨ru, hrurest, by rw [Registry.isKnown_applyRuleConfig]; exact hru⟩
      obtain ⟨n, hn⟩ := ih (r.applyRuleConfig rule.name rule.config)
        (rule.name :: seen) hnd2 hnotseen2 hex2
      refine ⟨n, ?_⟩
      rw [Registry.setConfigLoop_head_fresh r rule rest seen hkn
        (by simp [hnotseen rule (List.mem_cons_self rule rest)])]
      exact hn
    · exact ⟨rule.name, Registry.setConfigLoop_head_unknown r rule rest seen
        (by simpa using hkn)⟩

/-- Counterexample to C7 as stated: the second half of the claim demands an
unrecognized-check error for every document containing a rule naming an
unknown check, but a document that first names a known check twice and
then an unknown check fails with the duplicate-configuration error instead
(the loop stops hard at the first violation, which the spec admits). -/
theorem registry_setConfig_counterexample :
    Registry.SetConfig
        { known := [("a", NewCheck (fun _ _ _ => none) true)], enabledFlag := [] }
        [{ name := "a", config := none }, { name := "a", config := none },
         { name := "u", config := none }]
      = .error (.duplicateConfiguration "a") := rfl

/-- C7 (amended): for every configuration document all of whose rules name
known checks and whose rule list names some check twice, `SetConfig` fails
with a duplicate-configuration error (the whole operation fails, the first
occurrence does not silently win); and for every document with pairwise
distinct rule names containing a rule naming an unknown check, `SetConfig`
fails with an unrecognized-check error. -/
theorem registry_setConfig_duplicate_and_unrecognized :
    (∀ (r : Registry) (rules : List PreflightRule),
      (∀ rule ∈ rules, r.isKnown rule.name = true) →
      ¬(rules.map PreflightRule.name).Nodup →
      ∃ n, r.SetConfig rules = .error (.duplicateConfiguration n))
    ∧ (∀ (r : Registry) (rules : List PreflightRule),
      (rules.map PreflightRule.name).Nodup →
      (∃ rule ∈ rules, r.isKnown rule.name = false) →
      ∃ n, r.SetConfig rules = .error (.unrecognizedCheck n)) := by
  constructor
  · intro r rules hknown hnd
    exact Registry.setConfigLoop_duplicate rules r [] hknown (Or.inl hnd)
  · intro r rules hnd hex
    exact Registry.setConfigLoop_unknown rules r [] hnd (by simp) hex

/-- Witness for the amended C7: a registry knowing only "a", fed a
document naming "a" twice (duplicate-configuration error) and a document
naming the unknown "u" (unrecognized-check error). -/
theorem registry_setConfig_duplicate_and_unrecognized_witness :
    (∃ n, Registry.SetConfig
        { known := [("a", NewCheck (fun _ _ _ => none) true)], enabledFlag := [] }
        [{ name := "a", config := none }, { name := "a", config := none }]
      = .error (.duplicateConfiguration n))
    ∧ (∃ n, Registry.SetConfig
        { known := [("a", NewCheck (fun _ _ _ => none) true)], enabledFlag := [] }
        [{ name := "u", config := none }]
      = .error (.unrecognizedCheck n)) :=
  ⟨registry_setConfig_duplicate_and_unrecognized.1
      { known := [("a", NewCheck (fun _ _ _ => none) true)], enabledFlag := [] }
      [{ name := "a", config := none }, { name := "a", config := none }]
      (by decide) (by decide),
   registry_setConfig_duplicate_and_unrecognized.2
      { known := [("a", NewCheck (fun _ _ _ => none) true)], enabledFlag := [] }
      [{ name := "u", config := none }]
      (by decide) (by decide)⟩
